import Mathlib

/-!
Shallow embedding of the supernets2 / cdk data-availability node's core types
and database layer, verified against the repository's natural-language
specification.

Sources embedded:
* `types` package (sequence file): `Batch`, `SequenceBanana`, `HashToSign`,
  `OffChainData`, `SignedSequenceBanana.Signer`, `Sign`.
* `db/db.go`: the `pgDB` store operations over the `offchain_data` and
  `unresolved_batches` tables, with the transactional error handling.

Bytes are modelled as `Nat` (well-formedness `< 256` is carried as a
hypothesis where a round trip depends on it).  Keccak-256 and the secp256k1
ECDSA primitives are external libraries for the repository ("assumed
available" per the spec), so they enter the embedding as parameters.  The
SQL store is modelled as explicit state: a list of rows per table, the
stored cells holding exactly what the Go code sends to the database (hex
strings for hashes and values, numbers for the rest).
-/

/-- A byte string: each element is intended to be `< 256`. -/
abbrev Bytes := List Nat

/-- All elements of a byte string are genuine bytes. -/
def WfBytes (bs : Bytes) : Prop := ∀ b ∈ bs, b < 256

instance (bs : Bytes) : Decidable (WfBytes bs) := by
  unfold WfBytes; infer_instance

/-- Big-endian 8-byte encoding of a `uint64` value, as the solidity
tight-packing of a `uint64` does it. -/
def u64be (n : Nat) : Bytes :=
  [n / 2 ^ 56 % 256, n / 2 ^ 48 % 256, n / 2 ^ 40 % 256, n / 2 ^ 32 % 256,
   n / 2 ^ 24 % 256, n / 2 ^ 16 % 256, n / 2 ^ 8 % 256, n % 256]

/-- The zero `common.Hash{}`: 32 zero bytes. -/
def zeroHash32 : Bytes := List.replicate 32 0

/-- The Go struct `types.Batch`: the batch data the sequencer sends to L1.  Fields follow
the Go struct; `common.Hash` and `common.Address` values are byte strings. -/
structure Batch where
  l2Data : Bytes
  forcedGER : Bytes
  forcedTimestamp : Nat
  coinbase : Bytes
  forcedBlockHashL1 : Bytes
  deriving DecidableEq, Repr

/-- The Go struct `types.SequenceBanana`: batches plus the metadata needed to build the
accumulated input hash. -/
structure SequenceBanana where
  batches : List Batch
  oldAccInputHash : Bytes
  l1InfoRoot : Bytes
  maxSequenceTimestamp : Nat
  deriving DecidableEq, Repr

/-- The Go struct `types.OffChainData`: the key/value pair stored off chain, plus the
batch number column. -/
structure OffChainData where
  key : Bytes
  value : Bytes
  batchNum : Nat
  deriving DecidableEq, Repr

/-- Go `SequenceBanana.HashToSign`, translated statement by statement from the
Go loop: fold over the batches starting from the old accumulator; per batch,
keccak the tight packing of the forced tuple when `ForcedTimestamp > 0`, of
the regular tuple otherwise.  `keccak` is the external Keccak-256 primitive,
a parameter of the embedding. -/
def SequenceBanana.HashToSign (keccak : Bytes → Bytes) (s : SequenceBanana) : Bytes :=
  s.batches.foldl
    (fun currentHash b =>
      if b.forcedTimestamp > 0 then
        keccak (currentHash ++ keccak b.l2Data ++ b.forcedGER ++
          u64be b.forcedTimestamp ++ b.coinbase ++ b.forcedBlockHashL1)
      else
        keccak (currentHash ++ keccak b.l2Data ++ s.l1InfoRoot ++
          u64be s.maxSequenceTimestamp ++ b.coinbase ++ zeroHash32))
    s.oldAccInputHash

/-- The per-batch tuple packing as the spec words it: the tuple
`(currentAcc, keccak(payload), l1InfoRootOrForcedGER, timestampOrForcedTimestamp,
coinbase, forcedBlockHashL1OrZero)` tightly packed, the forced variant being
chosen iff the batch's forced timestamp is positive. -/
def specBatchTuple (keccak : Bytes → Bytes) (l1InfoRoot : Bytes)
    (maxSequenceTimestamp : Nat) (acc : Bytes) (b : Batch) : Bytes :=
  if 0 < b.forcedTimestamp then
    acc ++ keccak b.l2Data ++ b.forcedGER ++ u64be b.forcedTimestamp ++
      b.coinbase ++ b.forcedBlockHashL1
  else
    acc ++ keccak b.l2Data ++ l1InfoRoot ++ u64be maxSequenceTimestamp ++
      b.coinbase ++ zeroHash32

/-- The accumulated input hash as the spec words it: the old accumulator
folded across the batches in order, hashing the per-batch tuple. -/
def specAccInputHash (keccak : Bytes → Bytes) (l1InfoRoot : Bytes)
    (maxSequenceTimestamp : Nat) (acc : Bytes) : List Batch → Bytes
  | [] => acc
  | b :: bs =>
      specAccInputHash keccak l1InfoRoot maxSequenceTimestamp
        (keccak (specBatchTuple keccak l1InfoRoot maxSequenceTimestamp acc b)) bs

/-- Go `SequenceBanana.OffChainData`, translated from the Go loop: an empty
slice grown by appending, per batch, the item whose key is the keccak of the
payload and whose value is the payload.  The Go struct literal sets no
`BatchNum`, so the field keeps its zero value. -/
def SequenceBanana.OffChainData (keccak : Bytes → Bytes) (s : SequenceBanana) :
    List OffChainData :=
  s.batches.foldl
    (fun od b => od ++ [{ key := keccak b.l2Data, value := b.l2Data, batchNum := 0 }]) []

/-- The derivation as the spec claims it: per batch the triple
`{keccak256(payload), payload, batchNumber}` where `nums` supplies each
batch's number (the source `Batch` type carries no number of its own). -/
def specOffChainDataWithNums (keccak : Bytes → Bytes) (nums : List Nat)
    (s : SequenceBanana) : List OffChainData :=
  (s.batches.zip nums).map fun p =>
    { key := keccak p.1.l2Data, value := p.1.l2Data, batchNum := p.2 }

/-- A keccak stub used only to evaluate concrete counterexamples and
witnesses; the theorems themselves quantify over the hash function. -/
def kcStub : Bytes → Bytes := fun bs => List.replicate 31 0 ++ [bs.length % 256]

/-- A concrete one-batch sequence used by counterexamples and witnesses. -/
def seqEx1 : SequenceBanana :=
  { batches := [{ l2Data := [1, 2], forcedGER := zeroHash32, forcedTimestamp := 0,
                  coinbase := List.replicate 20 0, forcedBlockHashL1 := zeroHash32 }],
    oldAccInputHash := zeroHash32,
    l1InfoRoot := List.replicate 32 3,
    maxSequenceTimestamp := 42 }

/-!  ECDSA signing and recovery.

`crypto.Sign`, `crypto.SigToPub` and `crypto.PubkeyToAddress` are
go-ethereum primitives, external to the repository; the embedding takes
them as an abstract scheme.  `sign` returns the 64-byte `(r,s)` part and
the recovery id; `sigToPub` recovers a public key from a message and a
65-byte signature whose last byte is the recovery id. -/
structure EcdsaScheme (PrivKey PubKey : Type) where
  sign : PrivKey → Bytes → Bytes × Nat
  sigToPub : Bytes → Bytes → Option PubKey
  pub : PrivKey → PubKey
  pubkeyToAddress : PubKey → Bytes

/-- Constant `signatureLen`: the wire signature is 65 bytes `(r, s, v)`. -/
def signatureLen : Nat := 65

/-- Modelled from the spec: the `types.Sign` helper (its file is not under
`src/`; only its callers are).  Per the spec's signature encoding, the wire
signature is 65 bytes `(r, s, v)` with `v ∈ \x7b27, 28\x7d`, the recovery id
being `v − 27`; so the helper appends `recid + 27` to the 64-byte `(r, s)`
part produced by the ECDSA primitive. -/
def typesSign {PrivKey PubKey : Type} (scheme : EcdsaScheme PrivKey PubKey)
    (pk : PrivKey) (hash : Bytes) : Bytes :=
  (scheme.sign pk hash).1 ++ [(scheme.sign pk hash).2 + 27]

/-- Go `SequenceBanana.Sign`: what is signed is the accumulated input hash. -/
def SequenceBanana.Sign {PrivKey PubKey : Type} (scheme : EcdsaScheme PrivKey PubKey)
    (keccak : Bytes → Bytes) (pk : PrivKey) (s : SequenceBanana) : Bytes :=
  typesSign scheme pk (s.HashToSign keccak)

/-- The Go struct `types.SignedSequenceBanana`: a sequence plus its signature. -/
structure SignedSequenceBanana where
  sequence : SequenceBanana
  signature : Bytes
  deriving DecidableEq, Repr

/-- Go's `copy(dst, src)`: overwrite the first `min |dst| |src|` entries of
`dst` with those of `src`, keeping the rest of `dst`. -/
def copyBytes (dst src : Bytes) : Bytes :=
  src.take (min dst.length src.length) ++ dst.drop (min dst.length src.length)

/-- Go `SignedSequenceBanana.Signer`, translated statement by statement from
the Go method.  The method has a pointer receiver, so the embedding is
state-passing: the second component is the receiver after the call.  The
method copies the signature into a fresh buffer (`make` + `copy`), performs
the byte subtraction `sig[64] -= 27` on that copy (byte arithmetic wraps
mod 256), and recovers the public key over `HashToSign`. -/
def SignedSequenceBanana.Signer {PrivKey PubKey : Type}
    (scheme : EcdsaScheme PrivKey PubKey) (keccak : Bytes → Bytes)
    (s : SignedSequenceBanana) : Except String Bytes × SignedSequenceBanana :=
  if s.signature.length ≠ signatureLen then (Except.error ("invalid signature"), s)
  else
    let sig := copyBytes (List.replicate signatureLen 0) s.signature
    let sig := sig.set 64 ((sig.getD 64 0 + 229) % 256)
    match scheme.sigToPub (s.sequence.HashToSign keccak) sig with
    | none => (Except.error ("signature to public key failed"), s)
    | some pubKey => (Except.ok (scheme.pubkeyToAddress pubKey), s)

/-- A toy instantiation of the ECDSA scheme, used only to witness the
signing round trip at a concrete input. -/
def toyScheme : EcdsaScheme Nat Nat :=
  { sign := fun pk _ => (List.replicate 64 pk, 0),
    sigToPub := fun _ sig => some (sig.getD 0 0),
    pub := fun pk => pk,
    pubkeyToAddress := fun p => List.replicate 20 (p % 256) }

/-!  Hex encoding, as the Go code sends hashes and byte strings to the
database: `common.Hash.Hex()` is `"0x"` plus lowercase hex,
`common.Bytes2Hex` is lowercase hex without prefix, `common.FromHex`
strips an optional `0x`/`0X` prefix, left-pads an odd-length string with
`0`, and decodes hex pairs (decoding stops at the first invalid pair, as
`hex.DecodeString`'s partial output does), and `common.HexToHash` decodes
and then takes the last 32 bytes, left-padded with zeros. -/

/-- Go `common.Bytes2Hex`: two lowercase hex digits per byte. -/
def bytes2Hex (bs : Bytes) : List Char :=
  bs.foldr (fun b acc => Nat.digitChar (b / 16) :: Nat.digitChar (b % 16) :: acc) []

/-- Go `common.Hash.Hex()`: `"0x"` plus the hex digits. -/
def hashHex (k : Bytes) : List Char := '0' :: 'x' :: bytes2Hex k

/-- The value of one hex digit character, upper or lower case. -/
def hexVal (c : Char) : Option Nat :=
  if '0' ≤ c ∧ c ≤ '9' then some (c.toNat - 48)
  else if 'a' ≤ c ∧ c ≤ 'f' then some (c.toNat - 87)
  else if 'A' ≤ c ∧ c ≤ 'F' then some (c.toNat - 55)
  else none

/-- Decode hex digit pairs into bytes, stopping at the first invalid pair. -/
def decodeHexPairs : List Char → Bytes
  | a :: b :: rest =>
      match hexVal a, hexVal b with
      | some x, some y => (16 * x + y) :: decodeHexPairs rest
      | _, _ => []
  | _ => []

/-- Go's `has0xPrefix` check: strip a leading `0x` or `0X`. -/
def strip0x (s : List Char) : List Char :=
  match s with
  | c0 :: c1 :: rest => if c0 = '0' ∧ (c1 = 'x' ∨ c1 = 'X') then rest else c0 :: c1 :: rest
  | s => s

/-- Go `common.FromHex`. -/
def fromHex (s : List Char) : Bytes :=
  decodeHexPairs
    (if (strip0x s).length % 2 = 1 then '0' :: strip0x s else strip0x s)

/-- Go `common.Hash.SetBytes`: keep the last 32 bytes, left-padded with 0. -/
def setBytes32 (bs : Bytes) : Bytes :=
  List.replicate (32 - (if bs.length > 32 then bs.drop (bs.length - 32) else bs).length) 0 ++
    (if bs.length > 32 then bs.drop (bs.length - 32) else bs)

/-- Go `common.HexToHash`. -/
def hexToHash (s : List Char) : Bytes := setBytes32 (fromHex s)

/-!  The database model (`db/db.go`).  Each table is a list of rows whose
cells hold exactly what the Go code passes to the SQL driver: for
`offchain_data` the key is `Key.Hex()`, the value `Bytes2Hex(Value)` and
the batch number as is; for `unresolved_batches` the number as is and the
hash as `Hash.Hex()`. -/

/-- A row of `data_node.offchain_data`. -/
structure OffchainRow where
  key : List Char
  value : List Char
  batchNum : Nat
  deriving DecidableEq, Repr

/-- A row of `data_node.unresolved_batches`. -/
structure UnresolvedRow where
  num : Nat
  hash : List Char
  deriving DecidableEq, Repr

/-- The Go struct `types.BatchKey`: batch number plus payload hash. -/
structure BatchKey where
  number : Nat
  hash : Bytes
  deriving DecidableEq, Repr

/-- The database state: the two tables the embedded operations touch. -/
structure PgState where
  offchainData : List OffchainRow
  unresolvedBatches : List UnresolvedRow
  deriving DecidableEq, Repr

/-- The empty database. -/
def emptyPg : PgState := { offchainData := [], unresolvedBatches := [] }

/-- The database-layer errors relevant to the embedded reads:
`ErrStateNotSynchronized` (the distinct not-found error) or a driver
error. -/
inductive DbErr
  | notSynchronized
  | driver (msg : String)
  deriving DecidableEq, Repr

/-- The row `StoreOffChainData` sends for an item: hex key, hex value,
numeric batch number. -/
def encodeOffChainData (d : OffChainData) : OffchainRow :=
  { key := hashHex d.key, value := bytes2Hex d.value, batchNum := d.batchNum }

/-- The decode `GetOffChainData`/`ListOffChainData` perform on a row they
read: `HexToHash` on the key, `FromHex` on the value. -/
def decodeOffchainRow (r : OffchainRow) : OffChainData :=
  { key := hexToHash r.key, value := fromHex r.value, batchNum := r.batchNum }

/-- SQL `INSERT ... ON CONFLICT (key) DO UPDATE SET value = ..., batch_num = ...`:
update the row with the conflicting key in place, else insert. -/
def upsertOffchainRow (r : OffchainRow) : List OffchainRow → List OffchainRow
  | [] => [r]
  | x :: xs => if x.key = r.key then r :: xs else x :: upsertOffchainRow r xs

/-- Go `pgDB.StoreOffChainData` (success path): upsert each item in order. -/
def StoreOffChainData (od : List OffChainData) (st : PgState) : PgState :=
  od.foldl
    (fun st d =>
      { st with offchainData := upsertOffchainRow (encodeOffChainData d) st.offchainData })
    st

/-- Go `pgDB.GetOffChainData`: select the row by hex key (`LIMIT 1`); absence
(`sql.ErrNoRows`) is mapped to `ErrStateNotSynchronized`. -/
def GetOffChainData (key : Bytes) (st : PgState) : Except DbErr OffChainData :=
  match st.offchainData.find? (fun r => r.key == hashHex key) with
  | none => Except.error DbErr.notSynchronized
  | some r => Except.ok (decodeOffchainRow r)

/-- Go `pgDB.ListOffChainData`: empty input returns `nil, nil` before any
query is built; otherwise select the rows whose key is among the hex keys. -/
def ListOffChainData (keys : List Bytes) (st : PgState) : Except DbErr (List OffChainData) :=
  if keys.length = 0 then Except.ok []
  else
    Except.ok
      ((st.offchainData.filter (fun r => (keys.map hashHex).contains r.key)).map
        decodeOffchainRow)

/-- The row `StoreUnresolvedBatchKeys` sends for a key. -/
def unresolvedRowOf (bk : BatchKey) : UnresolvedRow :=
  { num := bk.number, hash := hashHex bk.hash }

/-- SQL `INSERT ... ON CONFLICT (num, hash) DO NOTHING`: insert unless a row
with the same `(num, hash)` already exists. -/
def insertIgnoreUnresolved (bk : BatchKey) (rows : List UnresolvedRow) : List UnresolvedRow :=
  if rows.any (fun r => r.num == bk.number && r.hash == hashHex bk.hash) then rows
  else rows ++ [unresolvedRowOf bk]

/-- Go `pgDB.StoreUnresolvedBatchKeys` (success path): insert-ignore each key
in order. -/
def StoreUnresolvedBatchKeys (bks : List BatchKey) (st : PgState) : PgState :=
  bks.foldl
    (fun st bk =>
      { st with unresolvedBatches := insertIgnoreUnresolved bk st.unresolvedBatches })
    st

/-- Go `pgDB.GetUnresolvedBatchKeys`: `SELECT num, hash ... LIMIT limit`, each
row decoded with `common.HexToHash`. -/
def GetUnresolvedBatchKeys (limit : Nat) (st : PgState) : List BatchKey :=
  (st.unresolvedBatches.take limit).map (fun r => { number := r.num, hash := hexToHash r.hash })

/-!  The transactional control flow of the three multi-row writes in
`db/db.go`.  The SQL driver's per-row outcome and the outcomes of
`Rollback` and `Commit` are oracles (`none` = success, `some msg` =
failure with that error); each function mirrors the Go loop: on the first
failing row, roll back and return the original error, wrapped in
`"<rollback-err>: rollback caused by <original-err>"` when the rollback
itself fails; otherwise commit.  The boolean records whether `Rollback`
was invoked. -/

/-- Go `pgDB.StoreUnresolvedBatchKeys`, transactional control flow.  Each row
executes with arguments `(bk.Number, bk.Hash.Hex())`. -/
def StoreUnresolvedBatchKeysTx (execRow : Nat → List Char → Option String)
    (rollbackErr commitErr : Option String) :
    List BatchKey → Except String Unit × Bool
  | [] => (match commitErr with | some e => Except.error e | none => Except.ok (), false)
  | bk :: rest =>
      match execRow bk.number (hashHex bk.hash) with
      | some err =>
          (match rollbackErr with
           | some txErr => Except.error (txErr ++ ": rollback caused by " ++ err)
           | none => Except.error err, true)
      | none => StoreUnresolvedBatchKeysTx execRow rollbackErr commitErr rest

/-- Go `pgDB.DeleteUnresolvedBatchKeys`, transactional control flow.  Each row
executes with arguments `(bk.Number, bk.Hash.Hex())`. -/
def DeleteUnresolvedBatchKeysTx (execRow : Nat → List Char → Option String)
    (rollbackErr commitErr : Option String) :
    List BatchKey → Except String Unit × Bool
  | [] => (match commitErr with | some e => Except.error e | none => Except.ok (), false)
  | bk :: rest =>
      match execRow bk.number (hashHex bk.hash) with
      | some err =>
          (match rollbackErr with
           | some txErr => Except.error (txErr ++ ": rollback caused by " ++ err)
           | none => Except.error err, true)
      | none => DeleteUnresolvedBatchKeysTx execRow rollbackErr commitErr rest

/-- Go `pgDB.StoreOffChainData`, transactional control flow.  Each row executes
with arguments `(d.Key.Hex(), Bytes2Hex(d.Value), d.BatchNum)`. -/
def StoreOffChainDataTx (execRow : List Char → List Char → Nat → Option String)
    (rollbackErr commitErr : Option String) :
    List OffChainData → Except String Unit × Bool
  | [] => (match commitErr with | some e => Except.error e | none => Except.ok (), false)
  | d :: rest =>
      match execRow (hashHex d.key) (bytes2Hex d.value) d.batchNum with
      | some err =>
          (match rollbackErr with
           | some txErr => Except.error (txErr ++ ": rollback caused by " ++ err)
           | none => Except.error err, true)
      | none => StoreOffChainDataTx execRow rollbackErr commitErr rest

/-!  Concrete fixtures for counterexamples and witnesses. -/

/-- A concrete batch key. -/
def bkEx1 : BatchKey := { number := 1, hash := List.replicate 32 17 }

/-- Another concrete batch key. -/
def bkEx2 : BatchKey := { number := 2, hash := List.replicate 32 34 }

/-- A concrete off-chain data item. -/
def odEx1 : OffChainData :=
  { key := List.replicate 32 1, value := [222, 173, 190, 239], batchNum := 9 }

/-- Another concrete off-chain data item (used as a succeeding row before a
failing one). -/
def odEx2 : OffChainData := { key := List.replicate 32 2, value := [1], batchNum := 1 }

/-- A row-execution oracle for batch keys that fails on batch number 2. -/
def execUEx : Nat → List Char → Option String :=
  fun n _ => if n = 2 then some ("boom") else none

/-- A row-execution oracle for off-chain items that fails on batch number 9. -/
def execOEx : List Char → List Char → Nat → Option String :=
  fun _ _ n => if n = 9 then some ("boom") else none

/-- A one-row `offchain_data` table holding `odEx1`'s row. -/
def stEx1 : PgState := { offchainData := [encodeOffChainData odEx1], unresolvedBatches := [] }

/-!  Theorems and supporting lemmas. -/

lemma specAccInputHash_cons (keccak : Bytes → Bytes) (r : Bytes) (t : Nat)
    (acc : Bytes) (b : Batch) (bs : List Batch) :
    specAccInputHash keccak r t acc (b :: bs) =
      specAccInputHash keccak r t (keccak (specBatchTuple keccak r t acc b)) bs := rfl

lemma hashToSign_eq_specAux (keccak : Bytes → Bytes) (r : Bytes) (t : Nat) :
    ∀ (bs : List Batch) (acc : Bytes),
      bs.foldl
        (fun currentHash b =>
          if b.forcedTimestamp > 0 then
            keccak (currentHash ++ keccak b.l2Data ++ b.forcedGER ++
              u64be b.forcedTimestamp ++ b.coinbase ++ b.forcedBlockHashL1)
          else
            keccak (currentHash ++ keccak b.l2Data ++ r ++
              u64be t ++ b.coinbase ++ zeroHash32)) acc =
      specAccInputHash keccak r t acc bs := by
  intro bs
  induction bs with
  | nil => intro acc; rfl
  | cons b rest ih =>
      intro acc
      rw [List.foldl_cons, specAccInputHash_cons, ← ih]
      by_cases hf : b.forcedTimestamp > 0
      · simp [specBatchTuple, hf]
      · simp [specBatchTuple, hf]

/-- C1: `HashToSign` is exactly the spec's accumulated input hash — the old
accumulator folded across the batches, hashing per batch the tightly packed
tuple, the forced variant (`ForcedGER`, `ForcedTimestamp`,
`ForcedBlockHashL1`) chosen iff `ForcedTimestamp > 0`, and otherwise the
regular variant (`L1InfoRoot`, `MaxSequenceTimestamp`, zero hash). -/
theorem hashToSign_is_spec_fold (keccak : Bytes → Bytes) (s : SequenceBanana) :
    s.HashToSign keccak =
      specAccInputHash keccak s.l1InfoRoot s.maxSequenceTimestamp
        s.oldAccInputHash s.batches := by
  unfold SequenceBanana.HashToSign
  exact hashToSign_eq_specAux keccak s.l1InfoRoot s.maxSequenceTimestamp
    s.batches s.oldAccInputHash

/-- C10: on an empty batch list, `HashToSign` returns exactly the old
accumulator `OldAccInputHash`. -/
theorem hashToSign_empty_batches (keccak : Bytes → Bytes) (s : SequenceBanana)
    (h : s.batches = []) : s.HashToSign keccak = s.oldAccInputHash := by
  unfold SequenceBanana.HashToSign
  rw [h]
  rfl

/-- Witness for C10 at a concrete empty sequence. -/
theorem hashToSign_empty_batches_witness :
    SequenceBanana.HashToSign kcStub
      { batches := [], oldAccInputHash := [7], l1InfoRoot := [], maxSequenceTimestamp := 0 }
      = [7] :=
  hashToSign_empty_batches kcStub
    { batches := [], oldAccInputHash := [7], l1InfoRoot := [], maxSequenceTimestamp := 0 }
    rfl

lemma foldl_append_singleton {α β : Type} (f : α → β) :
    ∀ (l : List α) (init : List β),
      l.foldl (fun acc a => acc ++ [f a]) init = init ++ l.map f := by
  intro l
  induction l with
  | nil => intro init; simp
  | cons a rest ih => intro init; simp [ih]

/-- C2 counterexample: the source derivation does not carry any batch
number.  Taking the one-batch sequence `seqEx1` whose batch is batch
number 7, the spec's claimed derivation `{keccak(payload), payload, 7}`
differs from what `SequenceBanana.OffChainData` actually produces — the
produced item's `batchNum` is the zero value, because the Go struct
literal sets only `Key` and `Value` (and `types.Batch` has no number
field to copy from). -/
theorem offChainData_no_batch_number :
    (SequenceBanana.OffChainData kcStub seqEx1).map (fun d => d.batchNum) = [0] ∧
      SequenceBanana.OffChainData kcStub seqEx1 ≠
        specOffChainDataWithNums kcStub [7] seqEx1 := by
  constructor
  · rfl
  · decide

/-- C2 (amended): the items `SequenceBanana.OffChainData` derives are, per
batch, `{key = keccak256(payload), value = payload, batchNum = 0}` — the
batch-number field is left at its zero value, not set to any batch
number. -/
theorem offChainData_items (keccak : Bytes → Bytes) (s : SequenceBanana) :
    s.OffChainData keccak =
      s.batches.map (fun b => { key := keccak b.l2Data, value := b.l2Data, batchNum := 0 }) := by
  unfold SequenceBanana.OffChainData
  exact (foldl_append_singleton
    (fun b => ({ key := keccak b.l2Data, value := b.l2Data, batchNum := 0 } : OffChainData))
    s.batches []).trans (List.nil_append _)

lemma copyBytes_same_len (dst src : Bytes) (h : dst.length = src.length) :
    copyBytes dst src = src := by
  unfold copyBytes
  rw [h, Nat.min_self, List.take_length, List.drop_eq_nil_of_le (le_of_eq h),
    List.append_nil]

lemma getD_append_len {α : Type} (d : α) :
    ∀ (l : List α) (a : α), (l ++ [a]).getD l.length d = a := by
  intro l
  induction l with
  | nil => intro a; rfl
  | cons b t ih => intro a; simp [ih a]

lemma set_append_len {α : Type} :
    ∀ (l : List α) (a x : α), (l ++ [a]).set l.length x = l ++ [x] := by
  intro l
  induction l with
  | nil => intro a x; rfl
  | cons b t ih => intro a x; simp [ih]

/-- C3: for a signature produced by `Sign` — 65 bytes `(r, s, v)` with
`v = recid + 27 ∈ \x7b27, 28\x7d` — `Signer` recovers the signing address using
recovery id `v − 27` over `HashToSign`: signing with a private key `pk` and
then calling `Signer` yields the address of `pk`'s public key.  The three
hypotheses are the contract of the external ECDSA primitive: `(r, s)` is
64 bytes, the recovery id is 0 or 1, and recovery inverts signing. -/
theorem signer_recovers_signing_address {PrivKey PubKey : Type}
    (scheme : EcdsaScheme PrivKey PubKey) (keccak : Bytes → Bytes)
    (pk : PrivKey) (s : SequenceBanana)
    (hlen : ∀ msg, (scheme.sign pk msg).1.length = 64)
    (hrecid : ∀ msg, (scheme.sign pk msg).2 < 2)
    (hrecover : ∀ msg,
      scheme.sigToPub msg ((scheme.sign pk msg).1 ++ [(scheme.sign pk msg).2]) =
        some (scheme.pub pk)) :
    (SignedSequenceBanana.Signer scheme keccak
        { sequence := s, signature := s.Sign scheme keccak pk }).1 =
      Except.ok (scheme.pubkeyToAddress (scheme.pub pk)) := by
  set msg := s.HashToSign keccak with hmsg
  have hsig : (SequenceBanana.Sign scheme keccak pk s) =
      (scheme.sign pk msg).1 ++ [(scheme.sign pk msg).2 + 27] := rfl
  have hsiglen : (SequenceBanana.Sign scheme keccak pk s).length = signatureLen := by
    rw [hsig, List.length_append, hlen msg]
    rfl
  unfold SignedSequenceBanana.Signer
  rw [if_neg (by simp [hsiglen])]
  have hcopy : copyBytes (List.replicate signatureLen 0)
      (SequenceBanana.Sign scheme keccak pk s) = SequenceBanana.Sign scheme keccak pk s := by
    apply copyBytes_same_len
    rw [hsiglen]
    rfl
  simp only [hcopy]
  have hgetD : (SequenceBanana.Sign scheme keccak pk s).getD 64 0 =
      (scheme.sign pk msg).2 + 27 := by
    rw [hsig, ← hlen msg]
    exact getD_append_len 0 _ _
  have hmod : ((scheme.sign pk msg).2 + 27 + 229) % 256 = (scheme.sign pk msg).2 := by
    have h2 := hrecid msg
    interval_cases h : (scheme.sign pk msg).2 <;> rfl
  have hset : (SequenceBanana.Sign scheme keccak pk s).set 64
      (((SequenceBanana.Sign scheme keccak pk s).getD 64 0 + 229) % 256) =
      (scheme.sign pk msg).1 ++ [(scheme.sign pk msg).2] := by
    rw [hgetD, hmod, hsig, ← hlen msg, set_append_len]
  simp only [hset]
  rw [hrecover msg]

/-- Witness for C3: under the toy scheme, signing `seqEx1` with key 5 and
recovering yields the address of key 5. -/
theorem signer_recovers_signing_address_witness :
    (SignedSequenceBanana.Signer toyScheme kcStub
        { sequence := seqEx1, signature := seqEx1.Sign toyScheme kcStub 5 }).1 =
      Except.ok (List.replicate 20 5) :=
  signer_recovers_signing_address toyScheme kcStub 5 seqEx1
    (fun _ => rfl) (fun _ => Nat.zero_lt_two) (fun _ => rfl)

/-- C9: `Signer` is read-only on its receiver: the `v − 27` adjustment is
performed on a private copy of the signature, so the receiver — its
`Signature` and its embedded `Sequence` — is returned unchanged. -/
theorem signer_preserves_receiver {PrivKey PubKey : Type}
    (scheme : EcdsaScheme PrivKey PubKey) (keccak : Bytes → Bytes)
    (s : SignedSequenceBanana) :
    (s.Signer scheme keccak).2.signature = s.signature ∧
      (s.Signer scheme keccak).2.sequence = s.sequence := by
  unfold SignedSequenceBanana.Signer
  by_cases h : s.signature.length ≠ signatureLen
  · rw [if_pos h]
    exact ⟨rfl, rfl⟩
  · rw [if_neg h]
    dsimp only
    split <;> exact ⟨rfl, rfl⟩

lemma hexVal_digitChar : ∀ n < 16, hexVal (Nat.digitChar n) = some n := by decide

lemma digitChar_ne_xX : ∀ n < 16, Nat.digitChar n ≠ 'x' ∧ Nat.digitChar n ≠ 'X' := by decide

lemma length_bytes2Hex (bs : Bytes) : (bytes2Hex bs).length = 2 * bs.length := by
  induction bs with
  | nil => rfl
  | cons b t ih =>
      show (Nat.digitChar (b / 16) :: Nat.digitChar (b % 16) :: bytes2Hex t).length = _
      simp [ih]
      omega

lemma decode_bytes2Hex : ∀ bs : Bytes, WfBytes bs → decodeHexPairs (bytes2Hex bs) = bs := by
  intro bs
  induction bs with
  | nil => intro _; rfl
  | cons b t ih =>
      intro h
      have hb : b < 256 := h b (List.mem_cons_self b t)
      have h1 : hexVal (Nat.digitChar (b / 16)) = some (b / 16) :=
        hexVal_digitChar _ (Nat.div_lt_of_lt_mul hb)
      have h2 : hexVal (Nat.digitChar (b % 16)) = some (b % 16) :=
        hexVal_digitChar _ (Nat.mod_lt b (by norm_num))
      show decodeHexPairs (Nat.digitChar (b / 16) :: Nat.digitChar (b % 16) :: bytes2Hex t)
            = b :: t
      simp only [decodeHexPairs, h1, h2]
      rw [Nat.div_add_mod, ih (fun x hx => h x (List.mem_cons_of_mem b hx))]

lemma strip0x_bytes2Hex (bs : Bytes) (h : WfBytes bs) :
    strip0x (bytes2Hex bs) = bytes2Hex bs := by
  cases bs with
  | nil => rfl
  | cons b t =>
      have hx := digitChar_ne_xX (b % 16) (Nat.mod_lt b (by norm_num))
      show (if Nat.digitChar (b / 16) = '0' ∧
              (Nat.digitChar (b % 16) = 'x' ∨ Nat.digitChar (b % 16) = 'X') then
            bytes2Hex t
          else Nat.digitChar (b / 16) :: Nat.digitChar (b % 16) :: bytes2Hex t)
          = Nat.digitChar (b / 16) :: Nat.digitChar (b % 16) :: bytes2Hex t
      rw [if_neg]
      rintro ⟨-, h1 | h1⟩
      · exact hx.1 h1
      · exact hx.2 h1

lemma fromHex_bytes2Hex (bs : Bytes) (h : WfBytes bs) : fromHex (bytes2Hex bs) = bs := by
  unfold fromHex
  rw [strip0x_bytes2Hex bs h, if_neg (by rw [length_bytes2Hex]; omega)]
  exact decode_bytes2Hex bs h

lemma strip0x_hashHex (k : Bytes) : strip0x (hashHex k) = bytes2Hex k := by
  show (if ('0' : Char) = '0' ∧ (('x' : Char) = 'x' ∨ ('x' : Char) = 'X') then bytes2Hex k
      else '0' :: 'x' :: bytes2Hex k) = bytes2Hex k
  rw [if_pos ⟨rfl, Or.inl rfl⟩]

lemma fromHex_hashHex (k : Bytes) (h : WfBytes k) : fromHex (hashHex k) = k := by
  unfold fromHex
  rw [strip0x_hashHex, if_neg (by rw [length_bytes2Hex]; omega)]
  exact decode_bytes2Hex k h

lemma hexToHash_hashHex (k : Bytes) (hlen : k.length = 32) (h : WfBytes k) :
    hexToHash (hashHex k) = k := by
  unfold hexToHash setBytes32
  rw [fromHex_hashHex k h]
  simp [hlen]

lemma decode_encode_offchain (d : OffChainData) (hkey : d.key.length = 32)
    (hwk : WfBytes d.key) (hwv : WfBytes d.value) :
    decodeOffchainRow (encodeOffChainData d) = d := by
  unfold decodeOffchainRow encodeOffChainData
  rw [hexToHash_hashHex d.key hkey hwk, fromHex_bytes2Hex d.value hwv]

lemma find?_upsertOffchainRow (q : OffchainRow) :
    ∀ rows, (upsertOffchainRow q rows).find? (fun r => r.key == q.key) = some q := by
  intro rows
  induction rows with
  | nil => simp [upsertOffchainRow, List.find?]
  | cons x xs ih =>
      unfold upsertOffchainRow
      by_cases h : x.key = q.key
      · rw [if_pos h]
        simp [List.find?]
      · rw [if_neg h]
        rw [List.find?_cons_of_neg _ (by simp [h])]
        exact ih

/-- C6: round-trip law of the store — after `StoreOffChainData([d])`, a
`GetOffChainData(d.key)` returns an item equal to `d`: the same key, the
same value bytes and the same batch number, the hex encoding of key and
value being inverted exactly on read.  The hypotheses say `d` is a real
item: a 32-byte key and genuine bytes throughout. -/
theorem storeOffChainData_roundTrip (d : OffChainData) (st : PgState)
    (hkey : d.key.length = 32) (hwk : WfBytes d.key) (hwv : WfBytes d.value) :
    GetOffChainData d.key (StoreOffChainData [d] st) = Except.ok d := by
  have h1 : (upsertOffchainRow (encodeOffChainData d) st.offchainData).find?
      (fun r => r.key == hashHex d.key) = some (encodeOffChainData d) :=
    find?_upsertOffchainRow (encodeOffChainData d) st.offchainData
  show (match (upsertOffchainRow (encodeOffChainData d) st.offchainData).find?
      (fun r => r.key == hashHex d.key) with
    | none => Except.error DbErr.notSynchronized
    | some r => Except.ok (decodeOffchainRow r)) = Except.ok d
  rw [h1]
  show Except.ok (decodeOffchainRow (encodeOffChainData d)) = Except.ok d
  rw [decode_encode_offchain d hkey hwk hwv]

/-- Witness for C6 at a concrete item over the empty store. -/
theorem storeOffChainData_roundTrip_witness :
    GetOffChainData odEx1.key (StoreOffChainData [odEx1] emptyPg) = Except.ok odEx1 :=
  storeOffChainData_roundTrip odEx1 emptyPg rfl (by decide) (by decide)

/-- C4: `GetOffChainData` of a key absent from the `offchain_data` table is
the distinct `ErrStateNotSynchronized` error and no data; for a present
key it is the stored row, decoded. -/
theorem getOffChainData_absent_or_present (key : Bytes) (st : PgState) :
    ((∀ r ∈ st.offchainData, r.key ≠ hashHex key) →
        GetOffChainData key st = Except.error DbErr.notSynchronized) ∧
      (∀ r, st.offchainData.find? (fun r => r.key == hashHex key) = some r →
        GetOffChainData key st = Except.ok (decodeOffchainRow r)) := by
  constructor
  · intro h
    unfold GetOffChainData
    have hnone : st.offchainData.find? (fun r => r.key == hashHex key) = none := by
      rw [List.find?_eq_none]
      intro x hx
      simp [h x hx]
    rw [hnone]
  · intro r hr
    unfold GetOffChainData
    rw [hr]

/-- Witness for C4: over the one-row table `stEx1`, a fresh key yields
`notSynchronized` and the present key yields its stored row. -/
theorem getOffChainData_absent_or_present_witness :
    GetOffChainData (List.replicate 32 3) stEx1 = Except.error DbErr.notSynchronized ∧
      GetOffChainData odEx1.key stEx1 =
        Except.ok (decodeOffchainRow (encodeOffChainData odEx1)) :=
  ⟨(getOffChainData_absent_or_present (List.replicate 32 3) stEx1).1 (by decide),
   (getOffChainData_absent_or_present odEx1.key stEx1).2 (encodeOffChainData odEx1)
     (by decide)⟩

/-- C8: `ListOffChainData` on an empty key list returns an empty result and
no error — the function short-circuits before building any query, so the
result is the same whatever the state of the store. -/
theorem listOffChainData_empty_input (st : PgState) :
    ListOffChainData [] st = Except.ok [] := rfl

lemma mem_insertIgnoreUnresolved_of_mem (bk : BatchKey) (r : UnresolvedRow)
    (rows : List UnresolvedRow) (h : r ∈ rows) : r ∈ insertIgnoreUnresolved bk rows := by
  unfold insertIgnoreUnresolved
  split
  · exact h
  · exact List.mem_append_left _ h

lemma rowOf_mem_insertIgnoreUnresolved (bk : BatchKey) (rows : List UnresolvedRow) :
    unresolvedRowOf bk ∈ insertIgnoreUnresolved bk rows := by
  unfold insertIgnoreUnresolved
  by_cases h : rows.any (fun r => r.num == bk.number && r.hash == hashHex bk.hash) = true
  · rw [if_pos h]
    obtain ⟨r, hr, hcond⟩ := List.any_eq_true.mp h
    simp only [Bool.and_eq_true, beq_iff_eq] at hcond
    have hrEq : r = unresolvedRowOf bk := by
      cases r
      simp only [unresolvedRowOf] at hcond ⊢
      exact UnresolvedRow.mk.injEq .. ▸ by simp [hcond.1, hcond.2]
    exact hrEq ▸ hr
  · rw [if_neg h]
    exact List.mem_append_right _ (by simp)

lemma mem_unresolved_store_of_mem (bks : List BatchKey) :
    ∀ (st : PgState) (r : UnresolvedRow), r ∈ st.unresolvedBatches →
      r ∈ (StoreUnresolvedBatchKeys bks st).unresolvedBatches := by
  induction bks with
  | nil => intro st r h; exact h
  | cons bk rest ih =>
      intro st r h
      exact ih _ r (mem_insertIgnoreUnresolved_of_mem bk r _ h)

lemma rowOf_mem_store (bks : List BatchKey) :
    ∀ (st : PgState), ∀ bk ∈ bks,
      unresolvedRowOf bk ∈ (StoreUnresolvedBatchKeys bks st).unresolvedBatches := by
  induction bks with
  | nil => intro st bk h; exact absurd h (List.not_mem_nil bk)
  | cons b rest ih =>
      intro st bk h
      rcases List.mem_cons.mp h with h1 | h2
      · subst h1
        exact mem_unresolved_store_of_mem rest _ _ (rowOf_mem_insertIgnoreUnresolved bk _)
      · exact ih _ bk h2

lemma insertIgnore_of_mem (bk : BatchKey) (rows : List UnresolvedRow)
    (h : unresolvedRowOf bk ∈ rows) : insertIgnoreUnresolved bk rows = rows := by
  unfold insertIgnoreUnresolved
  rw [if_pos]
  exact List.any_eq_true.mpr ⟨unresolvedRowOf bk, h, by simp [unresolvedRowOf]⟩

lemma store_eq_of_all_mem (bks : List BatchKey) :
    ∀ st : PgState, (∀ bk ∈ bks, unresolvedRowOf bk ∈ st.unresolvedBatches) →
      StoreUnresolvedBatchKeys bks st = st := by
  induction bks with
  | nil => intro st _; rfl
  | cons b rest ih =>
      intro st h
      have hst : ({ st with
          unresolvedBatches := insertIgnoreUnresolved b st.unresolvedBatches } : PgState) = st := by
        rw [insertIgnore_of_mem b _ (h b (List.mem_cons_self b rest))]
      calc StoreUnresolvedBatchKeys (b :: rest) st
          = StoreUnresolvedBatchKeys rest
              { st with unresolvedBatches := insertIgnoreUnresolved b st.unresolvedBatches } := rfl
        _ = StoreUnresolvedBatchKeys rest st := by rw [hst]
        _ = st := ih st (fun bk hbk => h bk (List.mem_cons_of_mem _ hbk))

lemma length_insertIgnore (bk : BatchKey) (rows : List UnresolvedRow) :
    (insertIgnoreUnresolved bk rows).length ≤ rows.length + 1 := by
  unfold insertIgnoreUnresolved
  split
  · omega
  · simp

lemma length_store_le (bks : List BatchKey) :
    ∀ st : PgState, (StoreUnresolvedBatchKeys bks st).unresolvedBatches.length ≤
      st.unresolvedBatches.length + bks.length := by
  induction bks with
  | nil => intro st; simp [StoreUnresolvedBatchKeys]
  | cons b rest ih =>
      intro st
      have h1 := ih { st with unresolvedBatches := insertIgnoreUnresolved b st.unresolvedBatches }
      have h2 := length_insertIgnore b st.unresolvedBatches
      calc (StoreUnresolvedBatchKeys (b :: rest) st).unresolvedBatches.length
          = (StoreUnresolvedBatchKeys rest
              { st with
                unresolvedBatches := insertIgnoreUnresolved b st.unresolvedBatches
              }).unresolvedBatches.length := rfl
        _ ≤ (insertIgnoreUnresolved b st.unresolvedBatches).length + rest.length := h1
        _ ≤ st.unresolvedBatches.length + (b :: rest).length := by
            simp only [List.length_cons]
            omega

/-- C7: `StoreUnresolvedBatchKeys` is insert-ignore on conflict of
`(num, hash)` — storing a list twice leaves the `unresolved_batches` table
exactly as storing it once, whatever the prior state; and starting from a
table with no other rows, `GetUnresolvedBatchKeys` with limit `|ks|`
returns a set of keys containing every stored key (here for keys that are
real 32-byte hashes, so that the hex round trip is exact). -/
theorem storeUnresolvedBatchKeys_insert_ignore (ks : List BatchKey) :
    (∀ st : PgState,
        StoreUnresolvedBatchKeys ks (StoreUnresolvedBatchKeys ks st) =
          StoreUnresolvedBatchKeys ks st) ∧
      (∀ k ∈ ks, k.hash.length = 32 → WfBytes k.hash →
        k ∈ GetUnresolvedBatchKeys ks.length (StoreUnresolvedBatchKeys ks emptyPg)) := by
  constructor
  · intro st
    exact store_eq_of_all_mem ks _ (fun bk hbk => rowOf_mem_store ks st bk hbk)
  · intro k hk hlen hwf
    unfold GetUnresolvedBatchKeys
    have hle : (StoreUnresolvedBatchKeys ks emptyPg).unresolvedBatches.length ≤ ks.length := by
      have := length_store_le ks emptyPg
      simpa [emptyPg] using this
    rw [List.take_of_length_le hle]
    refine List.mem_map.mpr ⟨unresolvedRowOf k, rowOf_mem_store ks emptyPg k hk, ?_⟩
    show ({ number := k.number, hash := hexToHash (hashHex k.hash) } : BatchKey) = k
    rw [hexToHash_hashHex k.hash hlen hwf]

/-- Witness for C7 at two concrete keys over the empty table. -/
theorem storeUnresolvedBatchKeys_insert_ignore_witness :
    StoreUnresolvedBatchKeys [bkEx1, bkEx2]
        (StoreUnresolvedBatchKeys [bkEx1, bkEx2] emptyPg) =
        StoreUnresolvedBatchKeys [bkEx1, bkEx2] emptyPg ∧
      bkEx1 ∈ GetUnresolvedBatchKeys 2 (StoreUnresolvedBatchKeys [bkEx1, bkEx2] emptyPg) :=
  ⟨(storeUnresolvedBatchKeys_insert_ignore [bkEx1, bkEx2]).1 emptyPg,
   (storeUnresolvedBatchKeys_insert_ignore [bkEx1, bkEx2]).2 bkEx1 (by decide) rfl
     (by decide)⟩

lemma storeUnresolvedTx_fail (exec : Nat → List Char → Option String)
    (rb cm : Option String) (bad : BatchKey) (rest : List BatchKey) (e : String) :
    ∀ pre : List BatchKey, (∀ k ∈ pre, exec k.number (hashHex k.hash) = none) →
      exec bad.number (hashHex bad.hash) = some e →
      StoreUnresolvedBatchKeysTx exec rb cm (pre ++ bad :: rest) =
        ((match rb with
          | some txErr => Except.error (txErr ++ ": rollback caused by " ++ e)
          | none => Except.error e), true) := by
  intro pre
  induction pre with
  | nil =>
      intro _ hbad
      show StoreUnresolvedBatchKeysTx exec rb cm (bad :: rest) = _
      unfold StoreUnresolvedBatchKeysTx
      rw [hbad]
  | cons k pre ih =>
      intro hpre hbad
      have hk : exec k.number (hashHex k.hash) = none := hpre k (List.mem_cons_self k pre)
      show StoreUnresolvedBatchKeysTx exec rb cm (k :: (pre ++ bad :: rest)) = _
      unfold StoreUnresolvedBatchKeysTx
      rw [hk]
      exact ih (fun x hx => hpre x (List.mem_cons_of_mem k hx)) hbad

lemma deleteUnresolvedTx_fail (exec : Nat → List Char → Option String)
    (rb cm : Option String) (bad : BatchKey) (rest : List BatchKey) (e : String) :
    ∀ pre : List BatchKey, (∀ k ∈ pre, exec k.number (hashHex k.hash) = none) →
      exec bad.number (hashHex bad.hash) = some e →
      DeleteUnresolvedBatchKeysTx exec rb cm (pre ++ bad :: rest) =
        ((match rb with
          | some txErr => Except.error (txErr ++ ": rollback caused by " ++ e)
          | none => Except.error e), true) := by
  intro pre
  induction pre with
  | nil =>
      intro _ hbad
      show DeleteUnresolvedBatchKeysTx exec rb cm (bad :: rest) = _
      unfold DeleteUnresolvedBatchKeysTx
      rw [hbad]
  | cons k pre ih =>
      intro hpre hbad
      have hk : exec k.number (hashHex k.hash) = none := hpre k (List.mem_cons_self k pre)
      show DeleteUnresolvedBatchKeysTx exec rb cm (k :: (pre ++ bad :: rest)) = _
      unfold DeleteUnresolvedBatchKeysTx
      rw [hk]
      exact ih (fun x hx => hpre x (List.mem_cons_of_mem k hx)) hbad

lemma storeOffChainTx_fail (exec : List Char → List Char → Nat → Option String)
    (rb cm : Option String) (bad : OffChainData) (rest : List OffChainData) (e : String) :
    ∀ pre : List OffChainData,
      (∀ d ∈ pre, exec (hashHex d.key) (bytes2Hex d.value) d.batchNum = none) →
      exec (hashHex bad.key) (bytes2Hex bad.value) bad.batchNum = some e →
      StoreOffChainDataTx exec rb cm (pre ++ bad :: rest) =
        ((match rb with
          | some txErr => Except.error (txErr ++ ": rollback caused by " ++ e)
          | none => Except.error e), true) := by
  intro pre
  induction pre with
  | nil =>
      intro _ hbad
      show StoreOffChainDataTx exec rb cm (bad :: rest) = _
      unfold StoreOffChainDataTx
      rw [hbad]
  | cons d pre ih =>
      intro hpre hbad
      have hd : exec (hashHex d.key) (bytes2Hex d.value) d.batchNum = none :=
        hpre d (List.mem_cons_self d pre)
      show StoreOffChainDataTx exec rb cm (d :: (pre ++ bad :: rest)) = _
      unfold StoreOffChainDataTx
      rw [hd]
      exact ih (fun x hx => hpre x (List.mem_cons_of_mem d hx)) hbad

/-- C5: for each of the three multi-row writes — `StoreUnresolvedBatchKeys`,
`DeleteUnresolvedBatchKeys`, `StoreOffChainData` — a per-row failure with
error `e` triggers the rollback (the boolean) and surfaces `e` to the
caller; when the rollback itself also fails with `txErr`, the returned
error is exactly `txErr ++ ": rollback caused by " ++ e`, wrapping the
rollback error around the original. -/
theorem multiRowWrite_rollback_wraps_original :
    (∀ (exec : Nat → List Char → Option String) (rb cm : Option String)
        (pre : List BatchKey) (bad : BatchKey) (rest : List BatchKey) (e : String),
        (∀ k ∈ pre, exec k.number (hashHex k.hash) = none) →
        exec bad.number (hashHex bad.hash) = some e →
        StoreUnresolvedBatchKeysTx exec rb cm (pre ++ bad :: rest) =
          ((match rb with
            | some txErr => Except.error (txErr ++ ": rollback caused by " ++ e)
            | none => Except.error e), true)) ∧
      (∀ (exec : Nat → List Char → Option String) (rb cm : Option String)
          (pre : List BatchKey) (bad : BatchKey) (rest : List BatchKey) (e : String),
          (∀ k ∈ pre, exec k.number (hashHex k.hash) = none) →
          exec bad.number (hashHex bad.hash) = some e →
          DeleteUnresolvedBatchKeysTx exec rb cm (pre ++ bad :: rest) =
            ((match rb with
              | some txErr => Except.error (txErr ++ ": rollback caused by " ++ e)
              | none => Except.error e), true)) ∧
      (∀ (exec : List Char → List Char → Nat → Option String) (rb cm : Option String)
          (pre : List OffChainData) (bad : OffChainData) (rest : List OffChainData)
          (e : String),
          (∀ d ∈ pre, exec (hashHex d.key) (bytes2Hex d.value) d.batchNum = none) →
          exec (hashHex bad.key) (bytes2Hex bad.value) bad.batchNum = some e →
          StoreOffChainDataTx exec rb cm (pre ++ bad :: rest) =
            ((match rb with
              | some txErr => Except.error (txErr ++ ": rollback caused by " ++ e)
              | none => Except.error e), true)) :=
  ⟨fun exec rb cm pre bad rest e hpre hbad =>
      storeUnresolvedTx_fail exec rb cm bad rest e pre hpre hbad,
   fun exec rb cm pre bad rest e hpre hbad =>
      deleteUnresolvedTx_fail exec rb cm bad rest e pre hpre hbad,
   fun exec rb cm pre bad rest e hpre hbad =>
      storeOffChainTx_fail exec rb cm bad rest e pre hpre hbad⟩

/-- Witness for C5: concrete runs in which the second row fails with
`"boom"` — with a failing rollback the error reads exactly
`"rberr: rollback caused by boom"`; with a succeeding rollback the
original `"boom"` is surfaced unchanged. -/
theorem multiRowWrite_rollback_wraps_original_witness :
    StoreUnresolvedBatchKeysTx execUEx (some ("rberr")) none [bkEx1, bkEx2] =
        (Except.error ("rberr: rollback caused by boom"), true) ∧
      DeleteUnresolvedBatchKeysTx execUEx none none [bkEx1, bkEx2] =
        (Except.error ("boom"), true) ∧
      StoreOffChainDataTx execOEx (some ("rberr")) none [odEx2, odEx1] =
        (Except.error ("rberr: rollback caused by boom"), true) :=
  ⟨multiRowWrite_rollback_wraps_original.1 execUEx (some ("rberr")) none
      [bkEx1] bkEx2 [] "boom" (by decide) (by decide),
   multiRowWrite_rollback_wraps_original.2.1 execUEx none none
      [bkEx1] bkEx2 [] "boom" (by decide) (by decide),
   multiRowWrite_rollback_wraps_original.2.2 execOEx (some ("rberr")) none
      [odEx2] odEx1 [] "boom" (by decide) (by decide)⟩
